import Mathlib

/-!
# Needleman-Wunsch global alignment: embedding and verification

Shallow embedding of `needleman_wunsch.py` (class `NeedlemanWunsch` and
`NeedlemanWunschAdvanced`): the scoring policies, the dynamic-programming
matrix fill (`_initialize_score_matrix` + `_run_needleman_wunsch`), the
traceback walk (`_get_aligned_sequences`) and the public entry points
(`align`, `align_with_matrices`).

Sequences are `List Char`; scores are `Int`; a scoring policy is a function
`Char → Char → Int`; the gap penalty is an `Int` parameter.  A Python
function that can raise is embedded with an `Option` result (`none` models
the raised `ValueError`).
-/

namespace NW

/-- Traceback direction tags: the `'D'` / `'U'` / `'L'` characters stored in
`traceback_matrix` by `_run_needleman_wunsch`. -/
inductive Dir where
  | D
  | U
  | L
deriving DecidableEq

/-- The gap marker `'-'` used by `_get_aligned_sequences`. -/
def gapChar : Char := '-'

/-- `NeedlemanWunsch._score_match_mismatch` (needleman_wunsch.py lines 42-56):
flat policy, `match_score` when the two characters are equal (plain `==`,
no case normalisation in the source), else `mismatch_score`. -/
def scoreMatchMismatch (matchScore mismatchScore : Int) (c1 c2 : Char) : Int :=
  if c1 = c2 then matchScore else mismatchScore

/-- The `transitions` set literal of
`NeedlemanWunschAdvanced._score_match_mismatch` (line 344). -/
def transitionPairs : List (Char × Char) :=
  [('A', 'G'), ('G', 'A'), ('C', 'T'), ('T', 'C')]

/-- `NeedlemanWunschAdvanced._score_match_mismatch` (lines 322-350):
`match_score` on exact equality (no case normalisation), else the pair is
uppercased and looked up in the transition set; transitions get
`transition_penalty`, everything else `transversion_penalty`. -/
def scoreAdvanced (matchScore transitionPenalty transversionPenalty : Int)
    (c1 c2 : Char) : Int :=
  if c1 = c2 then matchScore
  else if (c1.toUpper, c2.toUpper) ∈ transitionPairs then transitionPenalty
  else transversionPenalty

/-- Interior-row fill of `_run_needleman_wunsch` (lines 107-127).  One step
computes cell `(i, j+1)` of the score matrix together with its traceback tag:
`left` is the already-computed cell `(i, j)` of the current row, the list
argument holds the previous row's cells from position `j` on
(`pPrev = S[i-1][j]`, `pJ = S[i-1][j+1]`), and the character list holds
`seq2[j:]`.  The score is `max(diagonal, up, left)` and the tag follows the
source's `if max == diagonal / elif max == up / else` chain. -/
def fillRowAux (sc : Char → Char → Int) (gap : Int) (c1 : Char) :
    Int → List Int → List Char → List (Int × Dir)
  | left, pPrev :: pJ :: pRest, c2 :: cs =>
    let diagScore := pPrev + sc c1 c2
    let upScore := pJ + gap
    let leftScore := left + gap
    let best := max (max diagScore upScore) leftScore
    let dir := if best = diagScore then Dir.D else if best = upScore then Dir.U else Dir.L
    (best, dir) :: fillRowAux sc gap c1 best (pJ :: pRest) cs
  | _, _, _ => []

/-- Rows `1..n` of the two matrices of `_run_needleman_wunsch`.  Row `i`
starts with the initialised column-0 values (`S[i][0] = i*gap`, traceback
`'U'`, lines 77-78 and 101-102); its interior cells come from `fillRowAux`.
Each cell of the Python matrices is written exactly once, reading only
cells already in their final state, so building the rows functionally in
the same order yields the same matrices. -/
def fillRows (sc : Char → Char → Int) (gap : Int) (s2 : List Char) :
    List Char → Nat → List Int → List (List Int) × List (List (Option Dir))
  | [], _, _ => ([], [])
  | c1 :: rest, i, prev =>
    let filled := fillRowAux sc gap c1 ((i : Int) * gap) prev s2
    let scoreRow := ((i : Int) * gap) :: filled.map Prod.fst
    let tbRow : List (Option Dir) := some Dir.U :: filled.map (fun x => some x.2)
    let next := fillRows sc gap s2 rest (i + 1) scoreRow
    (scoreRow :: next.1, tbRow :: next.2)

/-- `NeedlemanWunsch._run_needleman_wunsch` (lines 82-129): returns
`(traceback_matrix, score_matrix)`.  Row 0 of the score matrix is
`S[0][j] = j*gap` (lines 73-74); row 0 of the traceback matrix is `None`
at the origin and `'L'` elsewhere (lines 103-104). -/
def runNeedlemanWunsch (sc : Char → Char → Int) (gap : Int) (s1 s2 : List Char) :
    List (List (Option Dir)) × List (List Int) :=
  let row0 : List Int := (List.range (s2.length + 1)).map fun j : Nat => (j : Int) * gap
  let tbRow0 : List (Option Dir) := none :: s2.map fun _ => some Dir.L
  let rows := fillRows sc gap s2 s1 1 row0
  (tbRow0 :: rows.2, row0 :: rows.1)

/-- The traceback loop of `_get_aligned_sequences` (lines 149-174), with the
appended-then-reversed lists of the source realised directly as appends on
the right.  The loop runs `while i > 0 or j > 0` and every iteration
decreases `i + j` by at least one, so `i + j` iterations always suffice;
the first argument is that iteration budget (structural recursion handle,
not present in the source).  A missing direction tag at an interior cell
would make the Python loop spin forever; that branch returns the pair
built so far and is unreachable for matrices produced by
`runNeedlemanWunsch`. -/
def walkAux (tb : List (List (Option Dir))) (s1 s2 : List Char) :
    Nat → Nat → Nat → List Char × List Char
  | 0, _, _ => ([], [])
  | _ + 1, 0, 0 => ([], [])
  | fuel + 1, 0, j + 1 =>
    let p := walkAux tb s1 s2 fuel 0 j
    (p.1 ++ [gapChar], p.2 ++ [s2.getD j gapChar])
  | fuel + 1, i + 1, 0 =>
    let p := walkAux tb s1 s2 fuel i 0
    (p.1 ++ [s1.getD i gapChar], p.2 ++ [gapChar])
  | fuel + 1, i + 1, j + 1 =>
    match (tb.getD (i + 1) []).getD (j + 1) none with
    | some Dir.D =>
      let p := walkAux tb s1 s2 fuel i j
      (p.1 ++ [s1.getD i gapChar], p.2 ++ [s2.getD j gapChar])
    | some Dir.U =>
      let p := walkAux tb s1 s2 fuel i (j + 1)
      (p.1 ++ [s1.getD i gapChar], p.2 ++ [gapChar])
    | some Dir.L =>
      let p := walkAux tb s1 s2 fuel (i + 1) j
      (p.1 ++ [gapChar], p.2 ++ [s2.getD j gapChar])
    | none => ([], [])

/-- `NeedlemanWunsch._get_aligned_sequences` (lines 131-177): walk the
traceback matrix from `(len(seq1), len(seq2))` back to the origin. -/
def getAlignedSequences (tb : List (List (Option Dir))) (s1 s2 : List Char) :
    List Char × List Char :=
  walkAux tb s1 s2 (s1.length + s2.length) s1.length s2.length

/-- `NeedlemanWunsch.align` (lines 179-197): raises `ValueError`
(embedded as `none`) when either sequence is empty, otherwise returns the
two aligned sequences and `score_matrix[len(seq1)][len(seq2)]`. -/
def align (sc : Char → Char → Int) (gap : Int) (s1 s2 : List Char) :
    Option (List Char × List Char × Int) :=
  if s1.isEmpty || s2.isEmpty then none
  else
    let r := runNeedlemanWunsch sc gap s1 s2
    let a := getAlignedSequences r.1 s1 s2
    some (a.1, a.2, (r.2.getD s1.length []).getD s2.length 0)

/-- `NeedlemanWunsch.align_with_matrices` (lines 199-220): performs no
validation and contains no raise; no operation it calls can fail, so the
embedded error channel (present to make "fails with `InvalidInput`"
statable) is never used.  Returns
`(seq1_aligned, seq2_aligned, score, score_matrix, traceback_matrix)`. -/
def alignWithMatrices (sc : Char → Char → Int) (gap : Int) (s1 s2 : List Char) :
    Option (List Char × List Char × Int × List (List Int) × List (List (Option Dir))) :=
  let r := runNeedlemanWunsch sc gap s1 s2
  let a := getAlignedSequences r.1 s1 s2
  some (a.1, a.2, (r.2.getD s1.length []).getD s2.length 0, r.2, r.1)

/-! ## Specification-level cell recurrence

`scoreCell` restates the matrix fill of `_run_needleman_wunsch` as a
recurrence on cell indices (base cases from `_initialize_score_matrix`,
interior cells from the `max(diagonal, up, left)` step); `dirCell`/`tbCell`
do the same for the traceback tags.  The bridge theorems below prove that
the list matrices built by `runNeedlemanWunsch` tabulate exactly these
functions. -/

/-- Cell `(i, j)` of the score matrix as a recurrence. -/
def scoreCell (sc : Char → Char → Int) (gap : Int) (s1 s2 : List Char) :
    Nat → Nat → Int
  | 0, j => (j : Int) * gap
  | i + 1, 0 => ((i : Int) + 1) * gap
  | i + 1, j + 1 =>
    max (max (scoreCell sc gap s1 s2 i j + sc (s1.getD i gapChar) (s2.getD j gapChar))
          (scoreCell sc gap s1 s2 i (j + 1) + gap))
      (scoreCell sc gap s1 s2 (i + 1) j + gap)
termination_by i j => (i, j)

/-- The traceback tag stored at interior cell `(i+1, j+1)`: the source's
`if max == diagonal / elif max == up / else` chain (lines 122-127). -/
def dirCell (sc : Char → Char → Int) (gap : Int) (s1 s2 : List Char) (i j : Nat) : Dir :=
  let diagScore := scoreCell sc gap s1 s2 i j + sc (s1.getD i gapChar) (s2.getD j gapChar)
  let upScore := scoreCell sc gap s1 s2 i (j + 1) + gap
  let leftScore := scoreCell sc gap s1 s2 (i + 1) j + gap
  let best := max (max diagScore upScore) leftScore
  if best = diagScore then Dir.D else if best = upScore then Dir.U else Dir.L

/-- Cell `(i, j)` of the traceback matrix as a function. -/
def tbCell (sc : Char → Char → Int) (gap : Int) (s1 s2 : List Char) :
    Nat → Nat → Option Dir
  | 0, 0 => none
  | 0, _ + 1 => some Dir.L
  | _ + 1, 0 => some Dir.U
  | i + 1, j + 1 => some (dirCell sc gap s1 s2 i j)

/-! ## Global alignments

An alignment is a list of columns; a column consumes a symbol from each
sequence (`sub`), from the first only (`del`, a gap in sequence 2), or from
the second only (`ins`, a gap in sequence 1).  `proj1`/`proj2` recover the
consumed symbols, `render1`/`render2` produce the gapped display strings,
and `alScore` is the alignment's total score. -/

/-- One column of a global alignment. -/
inductive Col where
  | sub (a b : Char)
  | del (a : Char)
  | ins (b : Char)
deriving DecidableEq

/-- Symbols an alignment consumes from sequence 1, in order. -/
def proj1 : List Col → List Char
  | [] => []
  | .sub a _ :: t => a :: proj1 t
  | .del a :: t => a :: proj1 t
  | .ins _ :: t => proj1 t

/-- Symbols an alignment consumes from sequence 2, in order. -/
def proj2 : List Col → List Char
  | [] => []
  | .sub _ b :: t => b :: proj2 t
  | .del _ :: t => proj2 t
  | .ins b :: t => b :: proj2 t

/-- Row 1 of an alignment's display: consumed symbol or gap marker. -/
def render1 : List Col → List Char
  | [] => []
  | .sub a _ :: t => a :: render1 t
  | .del a :: t => a :: render1 t
  | .ins _ :: t => gapChar :: render1 t

/-- Row 2 of an alignment's display: consumed symbol or gap marker. -/
def render2 : List Col → List Char
  | [] => []
  | .sub _ b :: t => b :: render2 t
  | .del _ :: t => gapChar :: render2 t
  | .ins b :: t => b :: render2 t

/-- Score of one alignment column: symbol pairs are scored by the policy,
gap columns by the gap penalty. -/
def colScore (sc : Char → Char → Int) (gap : Int) : Col → Int
  | .sub a b => sc a b
  | .del _ => gap
  | .ins _ => gap

/-- Total score of an alignment. -/
def alScore (sc : Char → Char → Int) (gap : Int) (A : List Col) : Int :=
  (A.map (colScore sc gap)).sum

/-- `A` is a global alignment of `s1` and `s2`: it consumes exactly the
symbols of both sequences, end to end. -/
def IsAlignment (s1 s2 : List Char) (A : List Col) : Prop :=
  proj1 A = s1 ∧ proj2 A = s2

/-- Removal of gap markers (`aligned.replace('-', '')` in the tests). -/
def removeGaps (l : List Char) : List Char :=
  l.filter fun c => c != gapChar

/-! ## Basic facts about the cell recurrence -/

theorem scoreCell_zero_left (sc : Char → Char → Int) (gap : Int) (s1 s2 : List Char)
    (j : Nat) : scoreCell sc gap s1 s2 0 j = (j : Int) * gap := by
  cases j <;> simp [scoreCell]

theorem scoreCell_zero_right (sc : Char → Char → Int) (gap : Int) (s1 s2 : List Char)
    (i : Nat) : scoreCell sc gap s1 s2 i 0 = (i : Int) * gap := by
  cases i with
  | zero => simp [scoreCell]
  | succ i => simp [scoreCell]

theorem scoreCell_succ_succ (sc : Char → Char → Int) (gap : Int) (s1 s2 : List Char)
    (i j : Nat) :
    scoreCell sc gap s1 s2 (i + 1) (j + 1) =
      max (max (scoreCell sc gap s1 s2 i j + sc (s1.getD i gapChar) (s2.getD j gapChar))
            (scoreCell sc gap s1 s2 i (j + 1) + gap))
        (scoreCell sc gap s1 s2 (i + 1) j + gap) := by
  simp [scoreCell]

/-- Stepping down one row costs at most a gap: the `up` candidate never
beats the cell below it. -/
theorem up_le_scoreCell (sc : Char → Char → Int) (gap : Int) (s1 s2 : List Char)
    (i j : Nat) : scoreCell sc gap s1 s2 i j + gap ≤ scoreCell sc gap s1 s2 (i + 1) j := by
  cases j with
  | zero =>
    rw [scoreCell_zero_right, scoreCell_zero_right]
    push_cast
    ring_nf
    omega
  | succ j =>
    rw [scoreCell_succ_succ]
    exact le_max_of_le_left (le_max_right _ _)

/-- Stepping right one column costs at most a gap. -/
theorem left_le_scoreCell (sc : Char → Char → Int) (gap : Int) (s1 s2 : List Char)
    (i j : Nat) : scoreCell sc gap s1 s2 i j + gap ≤ scoreCell sc gap s1 s2 i (j + 1) := by
  cases i with
  | zero =>
    rw [scoreCell_zero_left, scoreCell_zero_left]
    push_cast
    ring_nf
    omega
  | succ i =>
    rw [scoreCell_succ_succ]
    exact le_max_right _ _

theorem diag_le_scoreCell (sc : Char → Char → Int) (gap : Int) (s1 s2 : List Char)
    (i j : Nat) :
    scoreCell sc gap s1 s2 i j + sc (s1.getD i gapChar) (s2.getD j gapChar) ≤
      scoreCell sc gap s1 s2 (i + 1) (j + 1) := by
  rw [scoreCell_succ_succ]
  exact le_max_of_le_left (le_max_left _ _)

/-- The maximum of the three candidates is one of them. -/
theorem max_three_cases (a b c : Int) :
    max (max a b) c = a ∨ max (max a b) c = b ∨ max (max a b) c = c := by
  rcases max_choice (max a b) c with h | h
  · rcases max_choice a b with h' | h'
    · exact Or.inl (h.trans h')
    · exact Or.inr (Or.inl (h.trans h'))
  · exact Or.inr (Or.inr h)

/-! ## List helpers -/

theorem drop_eq_cons_facts {α : Type} (d : α) :
    ∀ (l : List α) (n : Nat) (c : α) (t : List α), l.drop n = c :: t →
      n < l.length ∧ l.getD n d = c ∧ l.drop (n + 1) = t := by
  intro l
  induction l with
  | nil => intro n c t h; simp at h
  | cons x xs ih =>
    intro n c t h
    cases n with
    | zero =>
      simp at h
      simp [h.1, h.2]
    | succ n =>
      simp only [List.drop_succ_cons] at h
      obtain ⟨h1, h2, h3⟩ := ih n c t h
      refine ⟨by simpa using Nat.succ_lt_succ h1, by simpa using h2, by simpa using h3⟩

theorem take_succ_getD {α : Type} (d : α) :
    ∀ (l : List α) (i : Nat), i < l.length →
      l.take (i + 1) = l.take i ++ [l.getD i d] := by
  intro l
  induction l with
  | nil => intro i h; simp at h
  | cons x xs ih =>
    intro i h
    cases i with
    | zero => simp
    | succ i =>
      simp only [List.take_succ_cons, List.getD_cons_succ, List.cons_append]
      rw [← ih i (by simpa using Nat.lt_of_succ_lt_succ h)]

theorem range'_map_shift {α : Type} (f : Nat → α) :
    ∀ (n s : Nat), (List.range' (s + 1) n).map f = (List.range' s n).map fun k => f (k + 1) := by
  intro n
  induction n with
  | zero => intro s; simp
  | succ n ih =>
    intro s
    rw [List.range'_succ, List.range'_succ]
    simp only [List.map_cons]
    rw [ih (s + 1)]

theorem getD_map_range' {α : Type} (f : Nat → α) (d : α) :
    ∀ (k s i : Nat), i < k → ((List.range' s k).map f).getD i d = f (s + i) := by
  intro k
  induction k with
  | zero => intro s i h; omega
  | succ k ih =>
    intro s i h
    rw [List.range'_succ]
    cases i with
    | zero => simp
    | succ i =>
      simp only [List.map_cons, List.getD_cons_succ]
      rw [ih (s + 1) i (by omega)]
      congr 1
      omega

/-! ## Bridge: the list matrices tabulate the cell recurrence

Each cell of the Python matrices is written exactly once, reading only
cells already in their final state; the next theorems make that precise for
the functional row construction. -/

theorem fillRowAux_spec (sc : Char → Char → Int) (gap : Int) (s1 s2 : List Char) (i0 : Nat) :
    ∀ (l : List Char) (j0 : Nat), s2.drop j0 = l →
      fillRowAux sc gap (s1.getD i0 gapChar) (scoreCell sc gap s1 s2 (i0 + 1) j0)
          ((List.range' j0 (s2.length + 1 - j0)).map (scoreCell sc gap s1 s2 i0)) l
        = (List.range' j0 (s2.length - j0)).map
            (fun j => (scoreCell sc gap s1 s2 (i0 + 1) (j + 1), dirCell sc gap s1 s2 i0 j)) := by
  intro l
  induction l with
  | nil =>
    intro j0 h
    have hlen : s2.length ≤ j0 := by
      by_contra hc
      push_neg at hc
      have : s2.drop j0 ≠ [] := by
        intro hnil
        have := congrArg List.length hnil
        simp [List.length_drop] at this
        omega
      exact this h
    have h0 : s2.length - j0 = 0 := by omega
    rw [h0]
    simp [fillRowAux]
  | cons c2 l' ih =>
    intro j0 h
    obtain ⟨hj0, hget, hdrop⟩ := drop_eq_cons_facts gapChar s2 j0 c2 l' h
    have hk2 : s2.length + 1 - j0 = (s2.length - 1 - j0) + 1 + 1 := by omega
    rw [hk2, List.range'_succ, List.range'_succ]
    simp only [List.map_cons]
    rw [fillRowAux]
    have hc2 : c2 = s2.getD j0 gapChar := hget.symm
    subst hc2
    have hbest :
        max (max (scoreCell sc gap s1 s2 i0 j0 +
              sc (s1.getD i0 gapChar) (s2.getD j0 gapChar))
            (scoreCell sc gap s1 s2 i0 (j0 + 1) + gap))
          (scoreCell sc gap s1 s2 (i0 + 1) j0 + gap)
          = scoreCell sc gap s1 s2 (i0 + 1) (j0 + 1) :=
      (scoreCell_succ_succ sc gap s1 s2 i0 j0).symm
    have hdir :
        (if scoreCell sc gap s1 s2 (i0 + 1) (j0 + 1)
              = scoreCell sc gap s1 s2 i0 j0 +
                  sc (s1.getD i0 gapChar) (s2.getD j0 gapChar) then Dir.D
          else if scoreCell sc gap s1 s2 (i0 + 1) (j0 + 1)
              = scoreCell sc gap s1 s2 i0 (j0 + 1) + gap then Dir.U
          else Dir.L) = dirCell sc gap s1 s2 i0 j0 := by
      rw [dirCell]
      rw [scoreCell_succ_succ sc gap s1 s2 i0 j0]
    have htail :
        fillRowAux sc gap (s1.getD i0 gapChar) (scoreCell sc gap s1 s2 (i0 + 1) (j0 + 1))
            ((List.range' (j0 + 1) (s2.length + 1 - (j0 + 1))).map
              (scoreCell sc gap s1 s2 i0)) l'
          = (List.range' (j0 + 1) (s2.length - (j0 + 1))).map
              (fun j => (scoreCell sc gap s1 s2 (i0 + 1) (j + 1), dirCell sc gap s1 s2 i0 j)) :=
      ih (j0 + 1) hdrop
    have hshape : s2.length + 1 - (j0 + 1) = (s2.length - 1 - j0) + 1 := by omega
    rw [hshape, List.range'_succ, List.map_cons] at htail
    simp only [hbest, hdir]
    rw [htail]
    have hlast : s2.length - j0 = (s2.length - (j0 + 1)) + 1 := by omega
    rw [hlast, List.range'_succ, List.map_cons]

theorem fillRows_spec (sc : Char → Char → Int) (gap : Int) (s1 s2 : List Char) :
    ∀ (l : List Char) (i0 : Nat), s1.drop i0 = l →
      fillRows sc gap s2 l (i0 + 1)
          ((List.range' 0 (s2.length + 1)).map (scoreCell sc gap s1 s2 i0))
        = ((List.range' (i0 + 1) (s1.length - i0)).map
              (fun i => (List.range' 0 (s2.length + 1)).map (scoreCell sc gap s1 s2 i)),
           (List.range' (i0 + 1) (s1.length - i0)).map
              (fun i => (List.range' 0 (s2.length + 1)).map (tbCell sc gap s1 s2 i))) := by
  intro l
  induction l with
  | nil =>
    intro i0 h
    have hlen : s1.length ≤ i0 := by
      by_contra hc
      push_neg at hc
      have : s1.drop i0 ≠ [] := by
        intro hnil
        have := congrArg List.length hnil
        simp [List.length_drop] at this
        omega
      exact this h
    have h0 : s1.length - i0 = 0 := by omega
    rw [h0]
    simp [fillRows]
  | cons c1 l' ih =>
    intro i0 h
    obtain ⟨hi0, hget, hdrop⟩ := drop_eq_cons_facts gapChar s1 i0 c1 l' h
    have hc1 : c1 = s1.getD i0 gapChar := hget.symm
    subst hc1
    rw [fillRows]
    have hrow := fillRowAux_spec sc gap s1 s2 i0 s2 0 rfl
    simp only [Nat.sub_zero] at hrow
    have hleft : ((i0 + 1 : Nat) : Int) * gap = scoreCell sc gap s1 s2 (i0 + 1) 0 :=
      (scoreCell_zero_right sc gap s1 s2 (i0 + 1)).symm
    rw [hleft, hrow]
    -- the produced score row is row i0+1 of the recurrence
    have hscoreRow :
        scoreCell sc gap s1 s2 (i0 + 1) 0 ::
            ((List.range' 0 s2.length).map
              (fun j => (scoreCell sc gap s1 s2 (i0 + 1) (j + 1),
                dirCell sc gap s1 s2 i0 j))).map Prod.fst
          = (List.range' 0 (s2.length + 1)).map (scoreCell sc gap s1 s2 (i0 + 1)) := by
      rw [List.range'_succ, List.map_cons]
      rw [range'_map_shift]
      rw [List.map_map]
      rfl
    have htbRow :
        some Dir.U ::
            ((List.range' 0 s2.length).map
              (fun j => (scoreCell sc gap s1 s2 (i0 + 1) (j + 1),
                dirCell sc gap s1 s2 i0 j))).map (fun x => some x.2)
          = (List.range' 0 (s2.length + 1)).map (tbCell sc gap s1 s2 (i0 + 1)) := by
      rw [List.range'_succ, List.map_cons]
      rw [range'_map_shift]
      rw [List.map_map]
      rfl
    rw [hscoreRow, htbRow]
    rw [ih (i0 + 1) hdrop]
    have hlast : s1.length - i0 = (s1.length - (i0 + 1)) + 1 := by omega
    have houter : List.range' (i0 + 1) (s1.length - i0)
        = (i0 + 1) :: List.range' (i0 + 1 + 1) (s1.length - (i0 + 1)) := by
      rw [hlast, List.range'_succ]
    rw [houter, List.map_cons, List.map_cons]

/-- The score matrix returned by `runNeedlemanWunsch` tabulates `scoreCell`. -/
theorem runNW_snd_eq (sc : Char → Char → Int) (gap : Int) (s1 s2 : List Char) :
    (runNeedlemanWunsch sc gap s1 s2).2
      = (List.range' 0 (s1.length + 1)).map
          (fun i => (List.range' 0 (s2.length + 1)).map (scoreCell sc gap s1 s2 i)) := by
  have hfill := fillRows_spec sc gap s1 s2 s1 0 rfl
  simp only [Nat.zero_add, Nat.sub_zero] at hfill
  have hrow0 : (List.range (s2.length + 1)).map (fun j : Nat => (j : Int) * gap)
      = (List.range' 0 (s2.length + 1)).map (scoreCell sc gap s1 s2 0) := by
    rw [List.range_eq_range']
    exact congrArg (fun f => List.map f (List.range' 0 (s2.length + 1)))
      (funext fun j => (scoreCell_zero_left sc gap s1 s2 j).symm)
  have houter : List.range' 0 (s1.length + 1) = 0 :: List.range' 1 s1.length := by
    simp [List.range'_succ]
  simp only [runNeedlemanWunsch]
  rw [hrow0, hfill, houter, List.map_cons]

/-- The traceback matrix returned by `runNeedlemanWunsch` tabulates `tbCell`. -/
theorem runNW_fst_eq (sc : Char → Char → Int) (gap : Int) (s1 s2 : List Char) :
    (runNeedlemanWunsch sc gap s1 s2).1
      = (List.range' 0 (s1.length + 1)).map
          (fun i => (List.range' 0 (s2.length + 1)).map (tbCell sc gap s1 s2 i)) := by
  have hfill := fillRows_spec sc gap s1 s2 s1 0 rfl
  simp only [Nat.zero_add, Nat.sub_zero] at hfill
  have hrow0 : (List.range (s2.length + 1)).map (fun j : Nat => (j : Int) * gap)
      = (List.range' 0 (s2.length + 1)).map (scoreCell sc gap s1 s2 0) := by
    rw [List.range_eq_range']
    exact congrArg (fun f => List.map f (List.range' 0 (s2.length + 1)))
      (funext fun j => (scoreCell_zero_left sc gap s1 s2 j).symm)
  have hconstmap : ∀ {α : Type} (l : List α), l.map (fun _ => (some Dir.L : Option Dir))
      = List.replicate l.length (some Dir.L) := by
    intro α l
    induction l with
    | nil => rfl
    | cons x xs ihx => simp [ihx, List.replicate_succ]
  have htb0 : (none : Option Dir) :: s2.map (fun _ => some Dir.L)
      = (List.range' 0 (s2.length + 1)).map (tbCell sc gap s1 s2 0) := by
    have h1 : List.range' 0 (s2.length + 1) = 0 :: List.range' (0 + 1) s2.length := by
      rw [List.range'_succ]
    rw [h1, List.map_cons, range'_map_shift]
    have h2 : (fun k : Nat => tbCell sc gap s1 s2 0 (k + 1))
        = fun _ : Nat => (some Dir.L : Option Dir) := funext fun k => rfl
    rw [h2, hconstmap, hconstmap, List.length_range']
    rfl
  have houter : List.range' 0 (s1.length + 1) = 0 :: List.range' 1 s1.length := by
    simp [List.range'_succ]
  simp only [runNeedlemanWunsch]
  rw [hrow0, hfill, htb0, houter, List.map_cons]

/-- Entry `(i, j)` of the produced score matrix. -/
theorem scoreEntry (sc : Char → Char → Int) (gap : Int) (s1 s2 : List Char) (i j : Nat)
    (hi : i ≤ s1.length) (hj : j ≤ s2.length) :
    (((runNeedlemanWunsch sc gap s1 s2).2.getD i []).getD j 0)
      = scoreCell sc gap s1 s2 i j := by
  rw [runNW_snd_eq]
  rw [getD_map_range' _ _ _ _ _ (by omega)]
  rw [getD_map_range' _ _ _ _ _ (by omega)]
  simp only [Nat.zero_add]

/-- Entry `(i, j)` of the produced traceback matrix. -/
theorem tbEntry (sc : Char → Char → Int) (gap : Int) (s1 s2 : List Char) (i j : Nat)
    (hi : i ≤ s1.length) (hj : j ≤ s2.length) :
    (((runNeedlemanWunsch sc gap s1 s2).1.getD i []).getD j none)
      = tbCell sc gap s1 s2 i j := by
  rw [runNW_fst_eq]
  rw [getD_map_range' _ _ _ _ _ (by omega)]
  rw [getD_map_range' _ _ _ _ _ (by omega)]
  simp only [Nat.zero_add]

/-! ## Alignment-column bookkeeping -/

theorem proj1_append (A B : List Col) : proj1 (A ++ B) = proj1 A ++ proj1 B := by
  induction A with
  | nil => rfl
  | cons c t ih => cases c <;> simp [proj1, ih]

theorem proj2_append (A B : List Col) : proj2 (A ++ B) = proj2 A ++ proj2 B := by
  induction A with
  | nil => rfl
  | cons c t ih => cases c <;> simp [proj2, ih]

theorem render1_append (A B : List Col) : render1 (A ++ B) = render1 A ++ render1 B := by
  induction A with
  | nil => rfl
  | cons c t ih => cases c <;> simp [render1, ih]

theorem render2_append (A B : List Col) : render2 (A ++ B) = render2 A ++ render2 B := by
  induction A with
  | nil => rfl
  | cons c t ih => cases c <;> simp [render2, ih]

theorem alScore_append (sc : Char → Char → Int) (gap : Int) (A B : List Col) :
    alScore sc gap (A ++ B) = alScore sc gap A + alScore sc gap B := by
  simp [alScore]

theorem render1_length (A : List Col) : (render1 A).length = A.length := by
  induction A with
  | nil => rfl
  | cons c t ih => cases c <;> simp [render1, ih]

theorem render2_length (A : List Col) : (render2 A).length = A.length := by
  induction A with
  | nil => rfl
  | cons c t ih => cases c <;> simp [render2, ih]

theorem proj1_length_le (A : List Col) : (proj1 A).length ≤ A.length := by
  induction A with
  | nil => simp [proj1]
  | cons c t ih => cases c <;> simp [proj1] <;> omega

theorem proj2_length_le (A : List Col) : (proj2 A).length ≤ A.length := by
  induction A with
  | nil => simp [proj2]
  | cons c t ih => cases c <;> simp [proj2] <;> omega

theorem length_le_projs (A : List Col) :
    A.length ≤ (proj1 A).length + (proj2 A).length := by
  induction A with
  | nil => simp [proj1, proj2]
  | cons c t ih => cases c <;> simp [proj1, proj2] <;> omega

/-- Filtering the gap markers out of the display row recovers the consumed
symbols, provided no consumed symbol is itself the gap marker. -/
theorem removeGaps_render1 (A : List Col) (h : ∀ c ∈ proj1 A, c ≠ gapChar) :
    removeGaps (render1 A) = proj1 A := by
  induction A with
  | nil => rfl
  | cons c t ih =>
    cases c with
    | sub a b =>
      have ha : (a != gapChar) = true := by
        simpa using h a (by simp [proj1])
      have ht := ih fun c hc => h c (by simp [proj1, hc])
      simp [render1, removeGaps, proj1, List.filter_cons, ha] at ht ⊢
      exact ht
    | del a =>
      have ha : (a != gapChar) = true := by
        simpa using h a (by simp [proj1])
      have ht := ih fun c hc => h c (by simp [proj1, hc])
      simp [render1, removeGaps, proj1, List.filter_cons, ha] at ht ⊢
      exact ht
    | ins b =>
      have ht := ih fun c hc => h c (by simp [proj1, hc])
      simp [render1, removeGaps, proj1, List.filter_cons] at ht ⊢
      exact ht

theorem removeGaps_render2 (A : List Col) (h : ∀ c ∈ proj2 A, c ≠ gapChar) :
    removeGaps (render2 A) = proj2 A := by
  induction A with
  | nil => rfl
  | cons c t ih =>
    cases c with
    | sub a b =>
      have hb : (b != gapChar) = true := by
        simpa using h b (by simp [proj2])
      have ht := ih fun c hc => h c (by simp [proj2, hc])
      simp [render2, removeGaps, proj2, List.filter_cons, hb] at ht ⊢
      exact ht
    | del a =>
      have ht := ih fun c hc => h c (by simp [proj2, hc])
      simp [render2, removeGaps, proj2, List.filter_cons] at ht ⊢
      exact ht
    | ins b =>
      have hb : (b != gapChar) = true := by
        simpa using h b (by simp [proj2])
      have ht := ih fun c hc => h c (by simp [proj2, hc])
      simp [render2, removeGaps, proj2, List.filter_cons, hb] at ht ⊢
      exact ht

/-- No column of an alignment displays a gap in both rows, provided no input
symbol is the gap marker. -/
theorem render_no_double_gap (A : List Col) (h1 : ∀ c ∈ proj1 A, c ≠ gapChar)
    (h2 : ∀ c ∈ proj2 A, c ≠ gapChar) :
    ∀ k, k < A.length →
      ¬((render1 A).getD k gapChar = gapChar ∧ (render2 A).getD k gapChar = gapChar) := by
  induction A with
  | nil => intro k hk; simp at hk
  | cons c t ih =>
    intro k hk
    cases k with
    | zero =>
      cases c with
      | sub a b =>
        intro hcon
        exact h1 a (by simp [proj1]) (by simpa [render1] using hcon.1)
      | del a =>
        intro hcon
        exact h1 a (by simp [proj1]) (by simpa [render1] using hcon.1)
      | ins b =>
        intro hcon
        exact h2 b (by simp [proj2]) (by simpa [render2] using hcon.2)
    | succ k =>
      cases c with
      | sub a b =>
        have := ih (fun x hx => h1 x (by simp [proj1, hx]))
          (fun x hx => h2 x (by simp [proj2, hx])) k (by simpa using Nat.lt_of_succ_lt_succ hk)
        simpa [render1, render2] using this
      | del a =>
        have := ih (fun x hx => h1 x (by simp [proj1, hx]))
          (fun x hx => h2 x (by simp [proj2, hx])) k (by simpa using Nat.lt_of_succ_lt_succ hk)
        simpa [render1, render2] using this
      | ins b =>
        have := ih (fun x hx => h1 x (by simp [proj1, hx]))
          (fun x hx => h2 x (by simp [proj2, hx])) k (by simpa using Nat.lt_of_succ_lt_succ hk)
        simpa [render1, render2] using this

/-- Decompose `L ++ [a] = s.take i`: the prefix consumed one more symbol. -/
theorem take_decomp {α : Type} (d : α) (s : List α) (i : Nat) (hi : i ≤ s.length)
    (L : List α) (a : α) (h : L ++ [a] = s.take i) :
    ∃ i', i = i' + 1 ∧ L = s.take i' ∧ a = s.getD i' d := by
  have hlen : L.length + 1 = i := by
    have := congrArg List.length h
    simp [List.length_take] at this
    omega
  obtain ⟨i', rfl⟩ : ∃ i', i = i' + 1 := ⟨L.length, by omega⟩
  have hi' : i' < s.length := by omega
  rw [take_succ_getD d s i' hi'] at h
  have hlen2 : L.length = (s.take i').length := by
    simp [List.length_take]
    omega
  obtain ⟨hL, ha⟩ := List.append_inj h hlen2
  refine ⟨i', rfl, hL, ?_⟩
  simpa using ha

/-! ## Optimality: upper bound over all global alignments -/

/-- Every global alignment of the prefixes `s1.take i`, `s2.take j` scores at
most the score-matrix cell `(i, j)`. -/
theorem alScore_le_scoreCell (sc : Char → Char → Int) (gap : Int) (s1 s2 : List Char) :
    ∀ (A : List Col) (i j : Nat), i ≤ s1.length → j ≤ s2.length →
      proj1 A = s1.take i → proj2 A = s2.take j →
      alScore sc gap A ≤ scoreCell sc gap s1 s2 i j := by
  intro A
  induction A using List.reverseRecOn with
  | nil =>
    intro i j hi hj h1 h2
    have hi0 : i = 0 := by
      have hlen := congrArg List.length h1
      rw [List.length_take] at hlen
      simp only [proj1, List.length_nil] at hlen
      omega
    have hj0 : j = 0 := by
      have hlen := congrArg List.length h2
      rw [List.length_take] at hlen
      simp only [proj2, List.length_nil] at hlen
      omega
    subst hi0
    subst hj0
    simp [alScore, scoreCell]
  | append_singleton A c ihA =>
    intro i j hi hj h1 h2
    cases c with
    | sub a b =>
      simp only [proj1_append, proj1] at h1
      simp only [proj2_append, proj2] at h2
      obtain ⟨i', rfl, hA1, ha⟩ := take_decomp gapChar s1 i hi _ _ h1
      obtain ⟨j', rfl, hA2, hb⟩ := take_decomp gapChar s2 j hj _ _ h2
      have hrec := ihA i' j' (by omega) (by omega) hA1 hA2
      have hstep := diag_le_scoreCell sc gap s1 s2 i' j'
      have : alScore sc gap (A ++ [Col.sub a b]) = alScore sc gap A + sc a b := by
        simp [alScore_append, alScore, colScore]
      rw [this, ha, hb]
      exact le_trans (add_le_add_right hrec _) hstep
    | del a =>
      simp only [proj1_append, proj1] at h1
      simp only [proj2_append, proj2, List.append_nil] at h2
      obtain ⟨i', rfl, hA1, ha⟩ := take_decomp gapChar s1 i hi _ _ h1
      have hrec := ihA i' j (by omega) hj hA1 h2
      have hstep := up_le_scoreCell sc gap s1 s2 i' j
      have : alScore sc gap (A ++ [Col.del a]) = alScore sc gap A + gap := by
        simp [alScore_append, alScore, colScore]
      rw [this]
      exact le_trans (add_le_add_right hrec _) hstep
    | ins b =>
      simp only [proj1_append, proj1, List.append_nil] at h1
      simp only [proj2_append, proj2] at h2
      obtain ⟨j', rfl, hA2, hb⟩ := take_decomp gapChar s2 j hj _ _ h2
      have hrec := ihA i j' hi (by omega) h1 hA2
      have hstep := left_le_scoreCell sc gap s1 s2 i j'
      have : alScore sc gap (A ++ [Col.ins b]) = alScore sc gap A + gap := by
        simp [alScore_append, alScore, colScore]
      rw [this]
      exact le_trans (add_le_add_right hrec _) hstep

/-! ## The stored direction always attains the cell's maximum -/

theorem dirCell_D_eq (sc : Char → Char → Int) (gap : Int) (s1 s2 : List Char) (i j : Nat)
    (h : dirCell sc gap s1 s2 i j = Dir.D) :
    scoreCell sc gap s1 s2 (i + 1) (j + 1)
      = scoreCell sc gap s1 s2 i j + sc (s1.getD i gapChar) (s2.getD j gapChar) := by
  rw [scoreCell_succ_succ]
  simp only [dirCell] at h
  split_ifs at h with hd hu
  exact hd

theorem dirCell_U_eq (sc : Char → Char → Int) (gap : Int) (s1 s2 : List Char) (i j : Nat)
    (h : dirCell sc gap s1 s2 i j = Dir.U) :
    scoreCell sc gap s1 s2 (i + 1) (j + 1) = scoreCell sc gap s1 s2 i (j + 1) + gap := by
  rw [scoreCell_succ_succ]
  simp only [dirCell] at h
  split_ifs at h with hd hu
  exact hu

theorem dirCell_L_eq (sc : Char → Char → Int) (gap : Int) (s1 s2 : List Char) (i j : Nat)
    (h : dirCell sc gap s1 s2 i j = Dir.L) :
    scoreCell sc gap s1 s2 (i + 1) (j + 1) = scoreCell sc gap s1 s2 (i + 1) j + gap := by
  rw [scoreCell_succ_succ]
  simp only [dirCell] at h
  split_ifs at h with hd hu
  rcases max_three_cases (scoreCell sc gap s1 s2 i j
      + sc (s1.getD i gapChar) (s2.getD j gapChar))
      (scoreCell sc gap s1 s2 i (j + 1) + gap)
      (scoreCell sc gap s1 s2 (i + 1) j + gap) with hc | hc | hc
  · exact absurd hc hd
  · exact absurd hc hu
  · exact hc

/-! ## The traceback walk returns an optimal alignment -/

/-- Walking the traceback matrix from `(i, j)` with enough fuel yields the
display rows of an alignment of the prefixes whose score is exactly the
score-matrix cell `(i, j)`. -/
theorem walk_spec (sc : Char → Char → Int) (gap : Int) (s1 s2 : List Char) :
    ∀ (fuel i j : Nat), i + j ≤ fuel → i ≤ s1.length → j ≤ s2.length →
      ∃ A : List Col,
        walkAux (runNeedlemanWunsch sc gap s1 s2).1 s1 s2 fuel i j
          = (render1 A, render2 A) ∧
        proj1 A = s1.take i ∧ proj2 A = s2.take j ∧
        alScore sc gap A = scoreCell sc gap s1 s2 i j := by
  intro fuel
  induction fuel with
  | zero =>
    intro i j hf hi hj
    obtain ⟨rfl, rfl⟩ : i = 0 ∧ j = 0 := by omega
    exact ⟨[], by simp [walkAux, render1, render2], by simp [proj1],
      by simp [proj2], by simp [alScore, scoreCell]⟩
  | succ fuel ih =>
    intro i j hf hi hj
    cases i with
    | zero =>
      cases j with
      | zero =>
        exact ⟨[], by simp [walkAux, render1, render2], by simp [proj1],
          by simp [proj2], by simp [alScore, scoreCell]⟩
      | succ j =>
        obtain ⟨A, hw, h1, h2, hs⟩ := ih 0 j (by omega) (by omega) (by omega)
        refine ⟨A ++ [Col.ins (s2.getD j gapChar)], ?_, ?_, ?_, ?_⟩
        · simp only [walkAux]
          rw [hw]
          simp [render1_append, render2_append, render1, render2]
        · simpa [proj1_append, proj1] using h1
        · rw [proj2_append, h2]
          simp only [proj2]
          exact (take_succ_getD gapChar s2 j (by omega)).symm
        · rw [alScore_append, hs]
          simp only [alScore, colScore, List.map_cons, List.map_nil, List.sum_cons,
            List.sum_nil, add_zero]
          rw [scoreCell_zero_left, scoreCell_zero_left]
          push_cast
          ring
    | succ i =>
      cases j with
      | zero =>
        obtain ⟨A, hw, h1, h2, hs⟩ := ih i 0 (by omega) (by omega) (by omega)
        refine ⟨A ++ [Col.del (s1.getD i gapChar)], ?_, ?_, ?_, ?_⟩
        · simp only [walkAux]
          rw [hw]
          simp [render1_append, render2_append, render1, render2]
        · rw [proj1_append, h1]
          simp only [proj1]
          exact (take_succ_getD gapChar s1 i (by omega)).symm
        · simpa [proj2_append, proj2] using h2
        · rw [alScore_append, hs]
          simp only [alScore, colScore, List.map_cons, List.map_nil, List.sum_cons,
            List.sum_nil, add_zero]
          rw [scoreCell_zero_right, scoreCell_zero_right]
          push_cast
          ring
      | succ j =>
        cases hdir : dirCell sc gap s1 s2 i j with
        | D =>
          have htb : (((runNeedlemanWunsch sc gap s1 s2).1.getD (i + 1) []).getD (j + 1) none)
              = some Dir.D := by
            rw [tbEntry sc gap s1 s2 (i + 1) (j + 1) hi hj]
            simp [tbCell, hdir]
          obtain ⟨A, hw, h1, h2, hs⟩ := ih i j (by omega) (by omega) (by omega)
          refine ⟨A ++ [Col.sub (s1.getD i gapChar) (s2.getD j gapChar)], ?_, ?_, ?_, ?_⟩
          · simp only [walkAux]
            rw [htb]
            simp only []
            rw [hw]
            simp [render1_append, render2_append, render1, render2]
          · rw [proj1_append, h1]
            simp only [proj1]
            exact (take_succ_getD gapChar s1 i (by omega)).symm
          · rw [proj2_append, h2]
            simp only [proj2]
            exact (take_succ_getD gapChar s2 j (by omega)).symm
          · rw [alScore_append, hs]
            simp only [alScore, colScore, List.map_cons, List.map_nil, List.sum_cons,
              List.sum_nil, add_zero]
            exact (dirCell_D_eq sc gap s1 s2 i j hdir).symm
        | U =>
          have htb : (((runNeedlemanWunsch sc gap s1 s2).1.getD (i + 1) []).getD (j + 1) none)
              = some Dir.U := by
            rw [tbEntry sc gap s1 s2 (i + 1) (j + 1) hi hj]
            simp [tbCell, hdir]
          obtain ⟨A, hw, h1, h2, hs⟩ := ih i (j + 1) (by omega) (by omega) hj
          refine ⟨A ++ [Col.del (s1.getD i gapChar)], ?_, ?_, ?_, ?_⟩
          · simp only [walkAux]
            rw [htb]
            simp only []
            rw [hw]
            simp [render1_append, render2_append, render1, render2]
          · rw [proj1_append, h1]
            simp only [proj1]
            exact (take_succ_getD gapChar s1 i (by omega)).symm
          · simpa [proj2_append, proj2] using h2
          · rw [alScore_append, hs]
            simp only [alScore, colScore, List.map_cons, List.map_nil, List.sum_cons,
              List.sum_nil, add_zero]
            exact (dirCell_U_eq sc gap s1 s2 i j hdir).symm
        | L =>
          have htb : (((runNeedlemanWunsch sc gap s1 s2).1.getD (i + 1) []).getD (j + 1) none)
              = some Dir.L := by
            rw [tbEntry sc gap s1 s2 (i + 1) (j + 1) hi hj]
            simp [tbCell, hdir]
          obtain ⟨A, hw, h1, h2, hs⟩ := ih (i + 1) j (by omega) hi (by omega)
          refine ⟨A ++ [Col.ins (s2.getD j gapChar)], ?_, ?_, ?_, ?_⟩
          · simp only [walkAux]
            rw [htb]
            simp only []
            rw [hw]
            simp [render1_append, render2_append, render1, render2]
          · simpa [proj1_append, proj1] using h1
          · rw [proj2_append, h2]
            simp only [proj2]
            exact (take_succ_getD gapChar s2 j (by omega)).symm
          · rw [alScore_append, hs]
            simp only [alScore, colScore, List.map_cons, List.map_nil, List.sum_cons,
              List.sum_nil, add_zero]
            exact (dirCell_L_eq sc gap s1 s2 i j hdir).symm

/-- On non-empty inputs `align` succeeds, returning the traceback walk's two
rows and the bottom-right score-matrix cell. -/
theorem align_some (sc : Char → Char → Int) (gap : Int) (s1 s2 : List Char)
    (h1 : s1 ≠ []) (h2 : s2 ≠ []) :
    align sc gap s1 s2 = some
      ((getAlignedSequences (runNeedlemanWunsch sc gap s1 s2).1 s1 s2).1,
       (getAlignedSequences (runNeedlemanWunsch sc gap s1 s2).1 s1 s2).2,
       scoreCell sc gap s1 s2 s1.length s2.length) := by
  have e1 : s1.isEmpty = false := by
    cases s1 with
    | nil => exact absurd rfl h1
    | cons x xs => rfl
  have e2 : s2.isEmpty = false := by
    cases s2 with
    | nil => exact absurd rfl h2
    | cons x xs => rfl
  rw [align, e1, e2]
  simp only [Bool.or_self, Bool.false_eq_true, if_false]
  rw [scoreEntry sc gap s1 s2 s1.length s2.length le_rfl le_rfl]

/-- The `if max == diagonal / elif max == up / else` chain characterised:
each direction is reported exactly when its candidate attains the maximum
and no higher-priority candidate does. -/
theorem ite_dir_spec (d u l : Int) :
    ((if max (max d u) l = d then Dir.D else if max (max d u) l = u then Dir.U else Dir.L)
        = Dir.D ↔ max (max d u) l = d) ∧
    ((if max (max d u) l = d then Dir.D else if max (max d u) l = u then Dir.U else Dir.L)
        = Dir.U ↔ max (max d u) l = u ∧ max (max d u) l ≠ d) ∧
    ((if max (max d u) l = d then Dir.D else if max (max d u) l = u then Dir.U else Dir.L)
        = Dir.L ↔ max (max d u) l = l ∧ max (max d u) l ≠ d ∧ max (max d u) l ≠ u) := by
  by_cases hd : max (max d u) l = d
  · simp [hd]
  · by_cases hu : max (max d u) l = u
    · have hud : ¬(u = d) := fun he => hd (hu.trans he)
      simp [hd, hu, hud]
    · have hl : max (max d u) l = l := by
        rcases max_three_cases d u l with hc | hc | hc
        · exact absurd hc hd
        · exact absurd hc hu
        · exact hc
      have hld : ¬(l = d) := fun he => hd (hl.trans he)
      have hlu : ¬(l = u) := fun he => hu (hl.trans he)
      simp [hd, hu, hl, hld, hlu]

/-! ## The claims -/

/-- C1: for every pair of non-empty sequences and every scoring policy, the
score returned by `align` — which is the value stored at
`score_matrix[len(seq1)][len(seq2)]` — is the greatest total score over all
global alignments of the two sequences (gaps at `gap_penalty`, symbol pairs
by the policy). -/
theorem c1_align_score_greatest (sc : Char → Char → Int) (gap : Int) (s1 s2 : List Char)
    (h1 : s1 ≠ []) (h2 : s2 ≠ []) :
    ∃ a1 a2 best, align sc gap s1 s2 = some (a1, a2, best) ∧
      best = (((runNeedlemanWunsch sc gap s1 s2).2.getD s1.length []).getD s2.length 0) ∧
      IsGreatest {v : Int | ∃ A : List Col, IsAlignment s1 s2 A ∧ alScore sc gap A = v}
        best := by
  refine ⟨_, _, _, align_some sc gap s1 s2 h1 h2, ?_, ?_⟩
  · exact (scoreEntry sc gap s1 s2 _ _ le_rfl le_rfl).symm
  · constructor
    · obtain ⟨A, hw, hp1, hp2, hs⟩ := walk_spec sc gap s1 s2 (s1.length + s2.length)
        s1.length s2.length le_rfl le_rfl le_rfl
      refine ⟨A, ⟨?_, ?_⟩, hs⟩
      · simpa [List.take_length] using hp1
      · simpa [List.take_length] using hp2
    · rintro v ⟨A, ⟨hA1, hA2⟩, rfl⟩
      exact alScore_le_scoreCell sc gap s1 s2 A s1.length s2.length le_rfl le_rfl
        (by simp [hA1, List.take_length]) (by simp [hA2, List.take_length])

theorem c1_align_score_greatest_witness :
    ((['A'] : List Char) ≠ [] ∧ (['G'] : List Char) ≠ []) ∧
    (∃ a1 a2 best, align (scoreMatchMismatch 1 (-1)) (-2) ['A'] ['G'] = some (a1, a2, best) ∧
      best = (((runNeedlemanWunsch (scoreMatchMismatch 1 (-1)) (-2) ['A'] ['G']).2.getD 1 []).getD 1 0) ∧
      IsGreatest {v : Int | ∃ A : List Col, IsAlignment ['A'] ['G'] A ∧
        alScore (scoreMatchMismatch 1 (-1)) (-2) A = v} best) :=
  ⟨⟨by decide, by decide⟩,
    c1_align_score_greatest (scoreMatchMismatch 1 (-1)) (-2) ['A'] ['G'] (by decide) (by decide)⟩

/-- C2: for non-empty sequences the produced score matrix has dimensions
`(n+1) × (m+1)`, its borders are gap multiples (`S[0][0] = 0`,
`S[0][j] = j·gap`, `S[i][0] = i·gap`) and every interior cell is the
maximum of the diagonal, up and left candidates. -/
theorem c2_score_matrix_recurrence (sc : Char → Char → Int) (gap : Int) (s1 s2 : List Char)
    (h1 : s1 ≠ []) (h2 : s2 ≠ []) :
    (runNeedlemanWunsch sc gap s1 s2).2.length = s1.length + 1 ∧
    (∀ i, i ≤ s1.length →
      ((runNeedlemanWunsch sc gap s1 s2).2.getD i []).length = s2.length + 1) ∧
    (((runNeedlemanWunsch sc gap s1 s2).2.getD 0 []).getD 0 0 = 0) ∧
    (∀ j, 1 ≤ j → j ≤ s2.length →
      ((runNeedlemanWunsch sc gap s1 s2).2.getD 0 []).getD j 0 = (j : Int) * gap) ∧
    (∀ i, 1 ≤ i → i ≤ s1.length →
      ((runNeedlemanWunsch sc gap s1 s2).2.getD i []).getD 0 0 = (i : Int) * gap) ∧
    (∀ i j, 1 ≤ i → i ≤ s1.length → 1 ≤ j → j ≤ s2.length →
      ((runNeedlemanWunsch sc gap s1 s2).2.getD i []).getD j 0 =
        max (max (((runNeedlemanWunsch sc gap s1 s2).2.getD (i - 1) []).getD (j - 1) 0
              + sc (s1.getD (i - 1) gapChar) (s2.getD (j - 1) gapChar))
            (((runNeedlemanWunsch sc gap s1 s2).2.getD (i - 1) []).getD j 0 + gap))
          (((runNeedlemanWunsch sc gap s1 s2).2.getD i []).getD (j - 1) 0 + gap)) := by
  refine ⟨?_, ?_, ?_, ?_, ?_, ?_⟩
  · rw [runNW_snd_eq]
    simp [List.length_range']
  · intro i hi
    rw [runNW_snd_eq, getD_map_range' _ _ _ _ _ (by omega)]
    simp [List.length_range']
  · rw [scoreEntry sc gap s1 s2 0 0 (by omega) (by omega)]
    simp [scoreCell]
  · intro j hj1 hjm
    rw [scoreEntry sc gap s1 s2 0 j (by omega) hjm]
    exact scoreCell_zero_left sc gap s1 s2 j
  · intro i hi1 hin
    rw [scoreEntry sc gap s1 s2 i 0 hin (by omega)]
    exact scoreCell_zero_right sc gap s1 s2 i
  · intro i j hi1 hin hj1 hjm
    obtain ⟨i', rfl⟩ : ∃ i', i = i' + 1 := ⟨i - 1, by omega⟩
    obtain ⟨j', rfl⟩ : ∃ j', j = j' + 1 := ⟨j - 1, by omega⟩
    simp only [Nat.add_sub_cancel]
    rw [scoreEntry sc gap s1 s2 (i' + 1) (j' + 1) hin hjm,
      scoreEntry sc gap s1 s2 i' j' (by omega) (by omega),
      scoreEntry sc gap s1 s2 i' (j' + 1) (by omega) hjm,
      scoreEntry sc gap s1 s2 (i' + 1) j' hin (by omega)]
    exact scoreCell_succ_succ sc gap s1 s2 i' j'

theorem c2_score_matrix_recurrence_witness :
    ((['A', 'T'] : List Char) ≠ [] ∧ (['G'] : List Char) ≠ []) ∧
    (runNeedlemanWunsch (scoreMatchMismatch 1 (-1)) (-2) ['A', 'T'] ['G']).2.length = 2 + 1 :=
  ⟨⟨by decide, by decide⟩,
    (c2_score_matrix_recurrence (scoreMatchMismatch 1 (-1)) (-2) ['A', 'T'] ['G']
      (by decide) (by decide)).1⟩

/-- C3: at every interior cell the traceback tag is the direction of the
candidate attaining the maximum, with tie-break priority DIAGONAL over UP
over LEFT: `D` iff the diagonal candidate attains the maximum, `U` iff the
up candidate does and the diagonal does not, `L` iff the left candidate
does and neither diagonal nor up does. -/
theorem c3_traceback_tiebreak (sc : Char → Char → Int) (gap : Int) (s1 s2 : List Char)
    (i j : Nat) (hi1 : 1 ≤ i) (hin : i ≤ s1.length) (hj1 : 1 ≤ j) (hjm : j ≤ s2.length) :
    (((runNeedlemanWunsch sc gap s1 s2).1.getD i []).getD j none = some Dir.D ↔
      max (max (((runNeedlemanWunsch sc gap s1 s2).2.getD (i - 1) []).getD (j - 1) 0
            + sc (s1.getD (i - 1) gapChar) (s2.getD (j - 1) gapChar))
          (((runNeedlemanWunsch sc gap s1 s2).2.getD (i - 1) []).getD j 0 + gap))
        (((runNeedlemanWunsch sc gap s1 s2).2.getD i []).getD (j - 1) 0 + gap)
        = ((runNeedlemanWunsch sc gap s1 s2).2.getD (i - 1) []).getD (j - 1) 0
            + sc (s1.getD (i - 1) gapChar) (s2.getD (j - 1) gapChar)) ∧
    ((((runNeedlemanWunsch sc gap s1 s2).1.getD i []).getD j none = some Dir.U ↔
      (max (max (((runNeedlemanWunsch sc gap s1 s2).2.getD (i - 1) []).getD (j - 1) 0
            + sc (s1.getD (i - 1) gapChar) (s2.getD (j - 1) gapChar))
          (((runNeedlemanWunsch sc gap s1 s2).2.getD (i - 1) []).getD j 0 + gap))
        (((runNeedlemanWunsch sc gap s1 s2).2.getD i []).getD (j - 1) 0 + gap)
        = ((runNeedlemanWunsch sc gap s1 s2).2.getD (i - 1) []).getD j 0 + gap) ∧
      max (max (((runNeedlemanWunsch sc gap s1 s2).2.getD (i - 1) []).getD (j - 1) 0
            + sc (s1.getD (i - 1) gapChar) (s2.getD (j - 1) gapChar))
          (((runNeedlemanWunsch sc gap s1 s2).2.getD (i - 1) []).getD j 0 + gap))
        (((runNeedlemanWunsch sc gap s1 s2).2.getD i []).getD (j - 1) 0 + gap)
        ≠ ((runNeedlemanWunsch sc gap s1 s2).2.getD (i - 1) []).getD (j - 1) 0
            + sc (s1.getD (i - 1) gapChar) (s2.getD (j - 1) gapChar))) ∧
    ((((runNeedlemanWunsch sc gap s1 s2).1.getD i []).getD j none = some Dir.L ↔
      (max (max (((runNeedlemanWunsch sc gap s1 s2).2.getD (i - 1) []).getD (j - 1) 0
            + sc (s1.getD (i - 1) gapChar) (s2.getD (j - 1) gapChar))
          (((runNeedlemanWunsch sc gap s1 s2).2.getD (i - 1) []).getD j 0 + gap))
        (((runNeedlemanWunsch sc gap s1 s2).2.getD i []).getD (j - 1) 0 + gap)
        = ((runNeedlemanWunsch sc gap s1 s2).2.getD i []).getD (j - 1) 0 + gap) ∧
      max (max (((runNeedlemanWunsch sc gap s1 s2).2.getD (i - 1) []).getD (j - 1) 0
            + sc (s1.getD (i - 1) gapChar) (s2.getD (j - 1) gapChar))
          (((runNeedlemanWunsch sc gap s1 s2).2.getD (i - 1) []).getD j 0 + gap))
        (((runNeedlemanWunsch sc gap s1 s2).2.getD i []).getD (j - 1) 0 + gap)
        ≠ ((runNeedlemanWunsch sc gap s1 s2).2.getD (i - 1) []).getD (j - 1) 0
            + sc (s1.getD (i - 1) gapChar) (s2.getD (j - 1) gapChar) ∧
      max (max (((runNeedlemanWunsch sc gap s1 s2).2.getD (i - 1) []).getD (j - 1) 0
            + sc (s1.getD (i - 1) gapChar) (s2.getD (j - 1) gapChar))
          (((runNeedlemanWunsch sc gap s1 s2).2.getD (i - 1) []).getD j 0 + gap))
        (((runNeedlemanWunsch sc gap s1 s2).2.getD i []).getD (j - 1) 0 + gap)
        ≠ ((runNeedlemanWunsch sc gap s1 s2).2.getD (i - 1) []).getD j 0 + gap)) := by
  obtain ⟨i', rfl⟩ : ∃ i', i = i' + 1 := ⟨i - 1, by omega⟩
  obtain ⟨j', rfl⟩ : ∃ j', j = j' + 1 := ⟨j - 1, by omega⟩
  simp only [Nat.add_sub_cancel]
  rw [tbEntry sc gap s1 s2 (i' + 1) (j' + 1) hin hjm,
    scoreEntry sc gap s1 s2 i' j' (by omega) (by omega),
    scoreEntry sc gap s1 s2 i' (j' + 1) (by omega) hjm,
    scoreEntry sc gap s1 s2 (i' + 1) j' hin (by omega)]
  simp only [tbCell, dirCell, Option.some.injEq]
  exact ite_dir_spec _ _ _

theorem c3_traceback_tiebreak_witness :
    ((1 ≤ (1 : Nat)) ∧ (1 ≤ (['A'] : List Char).length) ∧ (1 ≤ (1 : Nat)) ∧
      (1 ≤ (['T'] : List Char).length)) ∧
    (((runNeedlemanWunsch (scoreMatchMismatch 1 (-1)) (-2) ['A'] ['T']).1.getD 1 []).getD 1 none
        = some Dir.D ↔
      max (max (((runNeedlemanWunsch (scoreMatchMismatch 1 (-1)) (-2) ['A'] ['T']).2.getD 0 []).getD 0 0
            + scoreMatchMismatch 1 (-1) ((['A'] : List Char).getD 0 gapChar)
                ((['T'] : List Char).getD 0 gapChar))
          (((runNeedlemanWunsch (scoreMatchMismatch 1 (-1)) (-2) ['A'] ['T']).2.getD 0 []).getD 1 0
            + (-2)))
        (((runNeedlemanWunsch (scoreMatchMismatch 1 (-1)) (-2) ['A'] ['T']).2.getD 1 []).getD 0 0
          + (-2))
        = ((runNeedlemanWunsch (scoreMatchMismatch 1 (-1)) (-2) ['A'] ['T']).2.getD 0 []).getD 0 0
            + scoreMatchMismatch 1 (-1) ((['A'] : List Char).getD 0 gapChar)
                ((['T'] : List Char).getD 0 gapChar)) :=
  ⟨⟨by decide, by decide, by decide, by decide⟩,
    (c3_traceback_tiebreak (scoreMatchMismatch 1 (-1)) (-2) ['A'] ['T'] 1 1
      (by decide) (by decide) (by decide) (by decide)).1⟩

/-- C4 (amended): on non-empty inputs the two aligned outputs have equal
length, and — provided the corresponding input contains no `'-'` symbol —
removing the gap markers from an aligned output reproduces that input
exactly.  (If an input itself contains `'-'`, gap removal also deletes
those original symbols, so the unconditional round-trip of the claim
fails; see the counterexample.) -/
theorem c4_roundtrip (sc : Char → Char → Int) (gap : Int) (s1 s2 : List Char)
    (h1 : s1 ≠ []) (h2 : s2 ≠ []) :
    ∃ a1 a2 best, align sc gap s1 s2 = some (a1, a2, best) ∧
      a1.length = a2.length ∧
      (gapChar ∉ s1 → removeGaps a1 = s1) ∧
      (gapChar ∉ s2 → removeGaps a2 = s2) := by
  obtain ⟨A, hw, hp1, hp2, _⟩ := walk_spec sc gap s1 s2 (s1.length + s2.length)
    s1.length s2.length le_rfl le_rfl le_rfl
  have hga : getAlignedSequences (runNeedlemanWunsch sc gap s1 s2).1 s1 s2
      = (render1 A, render2 A) := hw
  rw [List.take_length] at hp1 hp2
  refine ⟨_, _, _, align_some sc gap s1 s2 h1 h2, ?_, ?_, ?_⟩
  · rw [hga]
    simp [render1_length, render2_length]
  · intro hg
    rw [hga]
    simp only []
    rw [removeGaps_render1 A fun c hc => ?_, hp1]
    rw [hp1] at hc
    intro he
    rw [he] at hc
    exact hg hc
  · intro hg
    rw [hga]
    simp only []
    rw [removeGaps_render2 A fun c hc => ?_, hp2]
    rw [hp2] at hc
    intro he
    rw [he] at hc
    exact hg hc

theorem c4_roundtrip_witness :
    ((['A', 'C'] : List Char) ≠ [] ∧ (['C'] : List Char) ≠ []) ∧
    (∃ a1 a2 best, align (scoreMatchMismatch 2 (-1)) (-2) ['A', 'C'] ['C']
        = some (a1, a2, best) ∧
      a1.length = a2.length ∧
      (gapChar ∉ (['A', 'C'] : List Char) → removeGaps a1 = ['A', 'C']) ∧
      (gapChar ∉ (['C'] : List Char) → removeGaps a2 = ['C'])) :=
  ⟨⟨by decide, by decide⟩,
    c4_roundtrip (scoreMatchMismatch 2 (-1)) (-2) ['A', 'C'] ['C'] (by decide) (by decide)⟩

/-- C4 counterexample: with `seq1 = "-"` (a sequence whose only symbol is
the gap marker) and `seq2 = "A"`, `align` returns `aligned1 = "-"`, and
removing every `'-'` from it yields `""`, not `seq1`. -/
theorem c4_counterexample :
    align (scoreMatchMismatch 2 (-1)) (-2) ['-'] ['A'] = some (['-'], ['A'], -1) ∧
    removeGaps ['-'] ≠ ['-'] := by
  refine ⟨by decide, by decide⟩

/-- C5: `align` fails (raises `InvalidInput`, embedded as `none`) exactly
when at least one input sequence is empty; on non-empty inputs it returns
a result. -/
theorem c5_invalid_input_iff (sc : Char → Char → Int) (gap : Int) :
    ∀ (s1 s2 : List Char), align sc gap s1 s2 = none ↔ s1 = [] ∨ s2 = [] := by
  intro s1 s2
  cases s1 <;> cases s2 <;> simp [align]

/-- C6 counterexample: `align_with_matrices` does not fail on an empty
first input — it returns a complete result (here: aligned pair
`("-", "A")`, score `-2` = `gap_penalty`, the `1 × 2` matrices), instead
of raising `InvalidInput` as the claim asserts. -/
theorem c6_counterexample :
    alignWithMatrices (scoreMatchMismatch 2 (-1)) (-2) [] ['A']
      = some (['-'], ['A'], -2, [[0, -2]], [[none, some Dir.L]]) := rfl

/-- C6 (amended): `align_with_matrices` performs no validation at all — for
every pair of input sequences, empty or not, it completes normally and
returns a result; it never fails with `InvalidInput`. -/
theorem c6_no_validation (sc : Char → Char → Int) (gap : Int) (s1 s2 : List Char) :
    (alignWithMatrices sc gap s1 s2).isSome = true := rfl

/-- C7: the transition/transversion policy's value table on uppercase
nucleotides — `match_score` on equal symbols, `transition_penalty` on
A↔G and C↔T, `transversion_penalty` on the eight transversion pairs. -/
theorem c7_transition_transversion_table (ms tp tv : Int) :
    scoreAdvanced ms tp tv 'A' 'A' = ms ∧ scoreAdvanced ms tp tv 'T' 'T' = ms ∧
    scoreAdvanced ms tp tv 'G' 'G' = ms ∧ scoreAdvanced ms tp tv 'C' 'C' = ms ∧
    scoreAdvanced ms tp tv 'A' 'G' = tp ∧ scoreAdvanced ms tp tv 'G' 'A' = tp ∧
    scoreAdvanced ms tp tv 'C' 'T' = tp ∧ scoreAdvanced ms tp tv 'T' 'C' = tp ∧
    scoreAdvanced ms tp tv 'A' 'T' = tv ∧ scoreAdvanced ms tp tv 'T' 'A' = tv ∧
    scoreAdvanced ms tp tv 'G' 'C' = tv ∧ scoreAdvanced ms tp tv 'C' 'G' = tv ∧
    scoreAdvanced ms tp tv 'A' 'C' = tv ∧ scoreAdvanced ms tp tv 'C' 'A' = tv ∧
    scoreAdvanced ms tp tv 'G' 'T' = tv ∧ scoreAdvanced ms tp tv 'T' 'G' = tv :=
  ⟨rfl, rfl, rfl, rfl, rfl, rfl, rfl, rfl, rfl, rfl, rfl, rfl, rfl, rfl, rfl, rfl⟩

/-- C8: evaluation at the input where the claimed case-insensitivity fails.
The flat policy compares with plain `==` and returns `mismatch_score` for
`('a', 'A')` — the repository's own test (`test_score_function`) asserts
`match_score` here; the advanced policy likewise returns
`transversion_penalty` for `('a', 'A')` although the uppercased pair is a
match. -/
theorem c8_case_sensitivity_eval :
    scoreMatchMismatch 2 (-1) 'a' 'A' = -1 ∧ scoreAdvanced 2 (-1) (-2) 'a' 'A' = -2 :=
  ⟨rfl, rfl⟩

/-- C9: the three concrete scenarios of the specification, computed by the
embedded engine: `align("WHY","WHAT")` with (1, -1, -2) gives
`("WH-Y", "WHAT")` and score `-1`; `align("GCATGCT","GATTACA")` with
(1, -1, -1) gives `("GCA-TGCT", "G-ATTACA")` (score 0); identical inputs
`"ATCG"` with (2, -1, -2) give `("ATCG", "ATCG")` and score 8. -/
theorem c9_concrete_scenarios :
    align (scoreMatchMismatch 1 (-1)) (-2) ['W', 'H', 'Y'] ['W', 'H', 'A', 'T']
      = some (['W', 'H', '-', 'Y'], ['W', 'H', 'A', 'T'], -1) ∧
    align (scoreMatchMismatch 1 (-1)) (-1)
        ['G', 'C', 'A', 'T', 'G', 'C', 'T'] ['G', 'A', 'T', 'T', 'A', 'C', 'A']
      = some (['G', 'C', 'A', '-', 'T', 'G', 'C', 'T'],
          ['G', '-', 'A', 'T', 'T', 'A', 'C', 'A'], 0) ∧
    align (scoreMatchMismatch 2 (-1)) (-2) ['A', 'T', 'C', 'G'] ['A', 'T', 'C', 'G']
      = some (['A', 'T', 'C', 'G'], ['A', 'T', 'C', 'G'], 8) := by
  refine ⟨by decide, by decide, by decide⟩

/-- C10 (amended): on non-empty inputs the aligned outputs have equal
length `L` with `max(n, m) ≤ L ≤ n + m` (every traceback step emits at
least one original symbol), and — provided neither input contains the
gap marker `'-'` — no position holds a gap in both rows.  (If an input
contains `'-'`, a column can display `'-'` in both rows; see the
counterexample.) -/
theorem c10_no_gap_gap_column (sc : Char → Char → Int) (gap : Int) (s1 s2 : List Char)
    (h1 : s1 ≠ []) (h2 : s2 ≠ []) :
    ∃ a1 a2 best, align sc gap s1 s2 = some (a1, a2, best) ∧
      a1.length = a2.length ∧
      max s1.length s2.length ≤ a1.length ∧
      a1.length ≤ s1.length + s2.length ∧
      (gapChar ∉ s1 → gapChar ∉ s2 → ∀ k, k < a1.length →
        ¬(a1.getD k gapChar = gapChar ∧ a2.getD k gapChar = gapChar)) := by
  obtain ⟨A, hw, hp1, hp2, _⟩ := walk_spec sc gap s1 s2 (s1.length + s2.length)
    s1.length s2.length le_rfl le_rfl le_rfl
  have hga : getAlignedSequences (runNeedlemanWunsch sc gap s1 s2).1 s1 s2
      = (render1 A, render2 A) := hw
  rw [List.take_length] at hp1 hp2
  have hlen1 : s1.length = (proj1 A).length := by rw [hp1]
  have hlen2 : s2.length = (proj2 A).length := by rw [hp2]
  refine ⟨_, _, _, align_some sc gap s1 s2 h1 h2, ?_, ?_, ?_, ?_⟩
  · rw [hga]
    simp [render1_length, render2_length]
  · rw [hga]
    simp only [render1_length]
    have := proj1_length_le A
    have := proj2_length_le A
    omega
  · rw [hga]
    simp only [render1_length]
    have := length_le_projs A
    omega
  · intro hg1 hg2 k hk
    rw [hga] at hk ⊢
    simp only [render1_length] at hk
    refine render_no_double_gap A (fun c hc => ?_) (fun c hc => ?_) k hk
    · rw [hp1] at hc
      intro he
      rw [he] at hc
      exact hg1 hc
    · rw [hp2] at hc
      intro he
      rw [he] at hc
      exact hg2 hc

theorem c10_no_gap_gap_column_witness :
    ((['A', 'C'] : List Char) ≠ [] ∧ (['G'] : List Char) ≠ []) ∧
    (∃ a1 a2 best, align (scoreMatchMismatch 2 (-1)) (-2) ['A', 'C'] ['G']
        = some (a1, a2, best) ∧
      a1.length = a2.length ∧
      max (['A', 'C'] : List Char).length (['G'] : List Char).length ≤ a1.length ∧
      a1.length ≤ (['A', 'C'] : List Char).length + (['G'] : List Char).length ∧
      (gapChar ∉ (['A', 'C'] : List Char) → gapChar ∉ (['G'] : List Char) →
        ∀ k, k < a1.length →
          ¬(a1.getD k gapChar = gapChar ∧ a2.getD k gapChar = gapChar))) :=
  ⟨⟨by decide, by decide⟩,
    c10_no_gap_gap_column (scoreMatchMismatch 2 (-1)) (-2) ['A', 'C'] ['G']
      (by decide) (by decide)⟩

/-- C10 counterexample: with `seq1 = seq2 = "-"` the aligned outputs are
both `"-"`, so position 0 holds the gap marker in both rows. -/
theorem c10_counterexample :
    align (scoreMatchMismatch 2 (-1)) (-2) ['-'] ['-'] = some (['-'], ['-'], 2) ∧
    ((['-'] : List Char).getD 0 gapChar = gapChar ∧
      (['-'] : List Char).getD 0 gapChar = gapChar) := by
  refine ⟨by decide, by decide, by decide⟩

end NW
